import Mathlib

/-!
Shallow embedding of the themis question-answering evaluation system
(checkpoint store, retry wrapper, metrics, confidence standardization,
oracle and fallback ensemble combination), with theorems checking the
natural-language specification against the code.
-/

namespace Themis

/-! ### Checkpoint store (src/themis/checkpoint.py, src/themis/__init__.py)

A `DataFrameCheckpoint` owns one backing file.  We model the backing file's
parsed content as a list of records (each record a list of column values, the
first column being the recovery key), carried inside the state. -/

/-- Record key: column 0 of a record (`usecols=[0]` in `pandas.read_csv`). -/
def recordKey (r : List String) : String := r.headI

/-- Set of keys present in a persisted file's records. -/
def persistedKeys (file : List (List String)) : Finset String :=
  (file.map recordKey).toFinset

/-- State of `DataFrameCheckpoint`: recovery set read at open time, header flag,
column schema, in-memory buffer, persisted file records, and flush interval. -/
structure DataFrameCheckpoint where
  recovered : Finset String
  needHeader : Bool
  columns : List String
  buffer : List (List String)
  fileRecords : List (List String)
  interval : Option Nat
deriving DecidableEq

/-- Model of `DataFrameCheckpoint.__init__`: `file = none` means the path does
not exist (`IOError` branch: empty recovery set, header needed); `file = some
records` means the path parsed to `records` (recovery set is column 0 of each
record, no header needed).  The file is then opened in append mode. -/
def openCheckpoint (file : Option (List (List String))) (columns : List String)
    (interval : Option Nat) : DataFrameCheckpoint :=
  match file with
  | some records =>
    { recovered := persistedKeys records, needHeader := false, columns := columns,
      buffer := [], fileRecords := records, interval := interval }
  | none =>
    { recovered := ∅, needHeader := true, columns := columns,
      buffer := [], fileRecords := [], interval := interval }

/-- Model of `DataFrameCheckpoint.flush`: append the buffer to the backing file,
clear the buffer, mark the header as written. -/
def DataFrameCheckpoint.flush (s : DataFrameCheckpoint) : DataFrameCheckpoint :=
  { s with fileRecords := s.fileRecords ++ s.buffer, buffer := [], needHeader := false }

/-- Row stored by `write`: `dict(zip(self.buffer.columns, values))` pairs the
column names with the values, truncating to the shorter of the two. -/
def rowOf (columns values : List String) : List String :=
  (columns.zip values).map Prod.snd

/-- Model of `DataFrameCheckpoint.write`: append the record to the buffer with
no duplicate-key check; auto-flush when the buffer length is a multiple of the
interval. -/
def DataFrameCheckpoint.write (s : DataFrameCheckpoint) (values : List String) :
    DataFrameCheckpoint :=
  let s' := { s with buffer := s.buffer ++ [rowOf s.columns values] }
  match s'.interval with
  | some n => if s'.buffer.length % n == 0 then s'.flush else s'
  | none => s'

/-- Model of `DataFrameCheckpoint.close`: flush (the file-handle release has no
observable effect on the modelled state). -/
def DataFrameCheckpoint.close (s : DataFrameCheckpoint) : DataFrameCheckpoint :=
  s.flush

/-- Run a sequence of `write` calls. -/
def writeMany (s : DataFrameCheckpoint) (ws : List (List String)) : DataFrameCheckpoint :=
  ws.foldl DataFrameCheckpoint.write s

/-- Lifecycle operations on an open checkpoint store. -/
inductive CheckpointOp where
  | write (values : List String)
  | flush
  | close
deriving DecidableEq

/-- Apply one lifecycle operation. -/
def applyOp (s : DataFrameCheckpoint) : CheckpointOp → DataFrameCheckpoint
  | .write values => s.write values
  | .flush => s.flush
  | .close => s.close

/-- Apply a sequence of lifecycle operations. -/
def applyOps (s : DataFrameCheckpoint) (ops : List CheckpointOp) : DataFrameCheckpoint :=
  ops.foldl applyOp s

/-! ### Indexed JSON checkpoint (src/get_paus.py, `IndexedJsonCheckpoint`)

Items are JSON objects, modelled as association lists of string fields; the
buffer is a dict keyed by the configured index field, modelled as an
association list in insertion order.  Failures (`raise Exception`) are
modelled in `Except`. -/

/-- Field lookup `item[idx]` on a JSON object; `none` models a `KeyError`. -/
def itemField (item : List (String × String)) (idx : String) : Option String :=
  (item.find? (fun p => p.1 == idx)).map Prod.snd

/-- State of `IndexedJsonCheckpoint`: flush interval, index field name,
in-memory buffer (dict index ↦ item), and the items stored in the file. -/
structure IndexedJsonCheckpoint where
  interval : Option Nat
  index : String
  buffer : List (String × List (String × String))
  fileItems : List (List (String × String))
deriving DecidableEq

/-- Model of `IndexedJsonCheckpoint.flush`: empty buffer is a no-op; otherwise
fail if a buffered index already exists on disk, else rewrite the file as the
old items plus the buffered items and clear the buffer. -/
def IndexedJsonCheckpoint.flush (s : IndexedJsonCheckpoint) :
    Except String IndexedJsonCheckpoint :=
  if s.buffer.isEmpty then pure s
  else if s.buffer.any
      (fun p => (s.fileItems.map (fun it => itemField it s.index)).contains (some p.1)) then
    Except.error "Duplicated items"
  else
    pure { s with fileItems := s.fileItems ++ s.buffer.map Prod.snd, buffer := [] }

/-- Model of `IndexedJsonCheckpoint.write`: read the item's index field (a
missing field is a `KeyError`), fail on an index already buffered, otherwise
insert into the buffer and auto-flush when the buffer size is a multiple of
the interval. -/
def IndexedJsonCheckpoint.write (s : IndexedJsonCheckpoint)
    (item : List (String × String)) : Except String IndexedJsonCheckpoint :=
  match itemField item s.index with
  | none => Except.error "KeyError"
  | some idx =>
    if (s.buffer.map Prod.fst).contains idx then
      Except.error ("Duplicated item " ++ idx)
    else
      let s' := { s with buffer := s.buffer ++ [(idx, item)] }
      match s'.interval with
      | some n => if s'.buffer.length % n == 0 then s'.flush else pure s'
      | none => pure s'

/-- Run a sequence of `IndexedJsonCheckpoint.write` calls, stopping at the
first raised exception. -/
def writeAllIndexed (s : IndexedJsonCheckpoint) :
    List (List (String × String)) → Except String IndexedJsonCheckpoint
  | [] => pure s
  | item :: items =>
    match s.write item with
    | .error e => .error e
    | .ok s' => writeAllIndexed s' items

/-! ### Retry wrapper (src/themis/checkpoint.py `retry`, src/themis/__init__.py `retry`)

The function under retry is modelled as a stream of call outcomes: on the
i-th invocation, `f i = some msg` means the call raises an exception with
message `msg`, and `f i = none` means it returns normally.  The trace records
how many invocations and fixed-backoff sleeps occur, and what propagates to
the caller of `retry`. -/

/-- Outcome propagated to the caller of `retry`. -/
inductive RetryOutcome where
  | ok
  | raised (msg : String)
deriving DecidableEq

/-- Observable trace of a `retry` run. -/
structure RetryTrace where
  calls : Nat
  sleeps : Nat
  outcome : RetryOutcome
deriving DecidableEq

/-- Model of the `times = k` branch of `retry` (after `assert times > 0`):
call the function once; on an exception, decrement, and if attempts remain,
sleep and recurse, else stop silently (the exception is not re-raised). The
argument `i` indexes the invocation. -/
def retryPos (f : Nat → Option String) (i : Nat) : Nat → RetryTrace
  | 0 => { calls := 0, sleeps := 0, outcome := .raised "AssertionError" }
  | Nat.succ t =>
    match f i with
    | none => { calls := 1, sleeps := 0, outcome := .ok }
    | some _ =>
      if t ≠ 0 then
        let r := retryPos f (i + 1) t
        { calls := r.calls + 1, sleeps := r.sleeps + 1, outcome := r.outcome }
      else { calls := 1, sleeps := 0, outcome := .ok }

/-- Model of `retry(function, times)`: `times = none` calls once and
propagates any exception; `times = some k` follows `retryPos`. -/
def retry (f : Nat → Option String) : Option Nat → RetryTrace
  | none =>
    { calls := 1, sleeps := 0,
      outcome := match f 0 with | some m => .raised m | none => .ok }
  | some k => retryPos f 0 k

/-! ### Metrics (src/themis/metrics.py, src/themis/curves.py)

A judgment row carries confidence, in-purview and correctness judgments, and
the usage-log frequency of the question.  Confidences are rationals; the
threshold sweep also uses the `numpy.Infinity` sentinel, so thresholds are
either finite or infinite. -/

/-- Judgment row (columns Confidence, In Purview, Correct, Frequency). -/
structure JRow where
  confidence : Rat
  inPurview : Bool
  correct : Bool
  frequency : Nat
deriving DecidableEq

/-- Threshold: a finite confidence value or the +∞ sentinel. -/
inductive Thresh where
  | fin (t : Rat)
  | inf
deriving DecidableEq

/-- Comparison `confidence >= t` used by every threshold filter; every finite
confidence compares below the +∞ sentinel. -/
def confGE (c : Rat) : Thresh → Bool
  | .fin t => decide (t ≤ c)
  | .inf => false

/-- Frequency-weighted sum over a set of rows. -/
def weightedSum (rows : List JRow) : Nat := (rows.map JRow.frequency).sum

/-- Model of `themis.metrics.precision`: frequency-weighted correct over
frequency-weighted in-purview among rows at or above the threshold; a zero
denominator (ZeroDivisionError) is caught and yields `none`. -/
def precision (judgments : List JRow) (t : Thresh) : Option Rat :=
  let s := judgments.filter (fun r => confGE r.confidence t)
  let correct := weightedSum (s.filter (fun r => r.correct))
  let in_purview := weightedSum (s.filter (fun r => r.inPurview))
  if in_purview = 0 then none
  else some ((correct : Rat) / (in_purview : Rat))

/-- Warnings logged by `themis.metrics.precision`: one warning exactly when
the denominator is zero. -/
def precisionWarnings (judgments : List JRow) (t : Thresh) : List String :=
  let s := judgments.filter (fun r => confGE r.confidence t)
  let in_purview := weightedSum (s.filter (fun r => r.inPurview))
  if in_purview = 0 then ["No in-purview questions at threshold level"] else []

/-- Model of `themis.metrics.questions_attempted`, with the same
caught-division-by-zero policy as `precision`. -/
def questions_attempted (judgments : List JRow) (t : Thresh) : Option Rat :=
  let s := judgments.filter (fun r => confGE r.confidence t)
  let in_purview_attempted := weightedSum (s.filter (fun r => r.inPurview))
  let total_in_purview := weightedSum (judgments.filter (fun r => r.inPurview))
  if total_in_purview = 0 then none
  else some ((in_purview_attempted : Rat) / (total_in_purview : Rat))

/-- Model of `themis.curves.precision` (the older duplicate): identical sums
but no try/except, so a zero denominator raises ZeroDivisionError. -/
def curvesPrecision (judgements : List JRow) (t : Thresh) : Except String Rat :=
  let s := judgements.filter (fun r => confGE r.confidence t)
  let correct := weightedSum (s.filter (fun r => r.correct))
  let in_purview := weightedSum (s.filter (fun r => r.inPurview))
  if in_purview = 0 then Except.error "ZeroDivisionError"
  else Except.ok ((correct : Rat) / (in_purview : Rat))

/-- Largest observed confidence value (head of `confidence_thresholds`, the
distinct confidences sorted descending); defined as 0 on an empty table,
which never arises in its uses. -/
def maxConfidence : List JRow → Rat
  | [] => 0
  | [r] => r.confidence
  | r :: rs => max r.confidence (maxConfidence rs)

/-! ### Rank-mode confidence standardization (src/themis/metrics.py
`__standardize_confidence`, `method='rank'`)

The source calls `pandas.Series.rank(pct=True)`, whose documented semantics
(default `method='average'`, no NaN) gives value `x` the average of the
positions its tie group occupies in the sorted order, divided by the number
of rows: `(#{y | y < x} + (1 + #{y | y = x}) / 2) / n`. -/

/-- Number of entries strictly below `x`. -/
def countLT (l : List Rat) (x : Rat) : Nat := (l.filter (fun y => decide (y < x))).length

/-- Number of entries equal to `x`. -/
def countEQ (l : List Rat) (x : Rat) : Nat := (l.filter (fun y => decide (y = x))).length

/-- Percentile rank of `x` within the confidence list `l` (average-rank tie
semantics, as a fraction of the list length). -/
def rankPct (l : List Rat) (x : Rat) : Rat :=
  ((countLT l x : Rat) + (1 + (countEQ l x : Rat)) / 2) / (l.length : Rat)

/-! ### Oracle combination (src/themis/analyze.py `oracle_combination`)

A collated system is its name plus judgment rows keyed by question.  The code
indexes each system's frame by question, standardizes its confidences to
percentile rank, intersects the question indexes, and then combines rows
question-wise with reductions over the per-system columns. -/

/-- Collated judgment row of one system for one question. -/
structure SRow where
  answer : String
  confidence : Rat
  inPurview : Bool
  correct : Bool
  frequency : Nat
deriving DecidableEq

/-- Metric view of a collated row. -/
def SRow.toJRow (r : SRow) : JRow :=
  { confidence := r.confidence, inPurview := r.inPurview, correct := r.correct,
    frequency := r.frequency }

/-- One contributing system: its name and its question-indexed rows. -/
structure QASystem where
  name : String
  rows : List (Nat × SRow)
deriving DecidableEq

/-- Row of a system for a question (first match in the index). -/
def lookupRow (s : QASystem) (q : Nat) : Option SRow :=
  (s.rows.find? (fun p => p.1 == q)).map Prod.snd

/-- Whether a system answered a question. -/
def hasQ (s : QASystem) (q : Nat) : Bool := s.rows.any (fun p => p.1 == q)

/-- Intersection of the question indexes of all systems, in the order of the
first system's index (`functools.reduce` of `Index.intersection`). -/
def sharedQuestions : List QASystem → List Nat
  | [] => []
  | s :: ss => (s.rows.map Prod.fst).filter (fun q => ss.all (fun s' => hasQ s' q))

/-- `functools.reduce(lambda m, x: m | x, bs)`: left fold of boolean or over a
nonempty list. -/
def reduceOr : List Bool → Bool
  | [] => false
  | b :: bs => bs.foldl (· || ·) b

/-- `functools.reduce(lambda m, x: m & x, bs)`: left fold of boolean and over
a nonempty list. -/
def reduceAnd : List Bool → Bool
  | [] => true
  | b :: bs => bs.foldl (· && ·) b

/-- Correctness of a system's row for a question. -/
def sysCorrect (s : QASystem) (q : Nat) : Bool :=
  ((lookupRow s q).map SRow.correct).getD false

/-- In-purview judgment of a system's row for a question. -/
def sysInPurview (s : QASystem) (q : Nat) : Bool :=
  ((lookupRow s q).map SRow.inPurview).getD true

/-- Rank-standardized (percentile) confidence of a system on a question,
computed within that system's own confidence distribution. -/
def systemPct (s : QASystem) (q : Nat) : Rat :=
  rankPct (s.rows.map (fun p => p.2.confidence))
    (((lookupRow s q).map SRow.confidence).getD 0)

/-- Oracle correctness: or-reduction of the contributing systems' correctness
columns. -/
def oracleCorrect (systems : List QASystem) (q : Nat) : Bool :=
  reduceOr (systems.map (fun s => sysCorrect s q))

/-- Oracle in-purview status: and-reduction across systems. -/
def oracleInPurview (systems : List QASystem) (q : Nat) : Bool :=
  reduceAnd (systems.map (fun s => sysInPurview s q))

/-- Percentile-confidence columns of the merged frame, one per system, in
input order (the merge of the renamed percentile columns). -/
def pctPairs (systems : List QASystem) (q : Nat) : List (String × Rat) :=
  systems.map (fun s => (s.name, systemPct s q))

/-- Model of `.max(axis=1)` paired with `.idxmax(axis=1)`: the maximum entry
of a row, with the first column attaining it (pandas `idxmax` returns the
first occurrence), as a (column, value) pair. -/
def rowMax : List (String × Rat) → Option (String × Rat)
  | [] => none
  | p :: ps => some (ps.foldl (fun m x => if m.2 < x.2 then x else m) p)

/-- Model of `.min(axis=1)` paired with `.idxmin(axis=1)` (first occurrence). -/
def rowMin : List (String × Rat) → Option (String × Rat)
  | [] => none
  | p :: ps => some (ps.foldl (fun m x => if x.2 < m.2 then x else m) p)

/-- Oracle confidence: the row maximum of the merged percentile columns when
the oracle is correct (`oracle.loc[correct]`), the row minimum otherwise
(`oracle.loc[~correct]`). -/
def oracleConfidence (systems : List QASystem) (q : Nat) : Rat :=
  match oracleCorrect systems q with
  | true => ((rowMax (pctPairs systems q)).map Prod.snd).getD 0
  | false => ((rowMin (pctPairs systems q)).map Prod.snd).getD 0

/-- Oracle provenance (the Answering System column): the column name attaining
the row maximum (oracle correct) or row minimum (oracle incorrect). -/
def oracleAnsweringSystem (systems : List QASystem) (q : Nat) : Option String :=
  match oracleCorrect systems q with
  | true => (rowMax (pctPairs systems q)).map Prod.fst
  | false => (rowMin (pctPairs systems q)).map Prod.fst

/-- Number of shared questions the oracle answers correctly
(`sum(system_data[CORRECT])` over the oracle's rows). -/
def oracleCorrectCount (systems : List QASystem) : Nat :=
  ((sharedQuestions systems).filter (fun q => oracleCorrect systems q)).length

/-- Number of shared questions a contributing system answers correctly. -/
def systemCorrectCount (systems : List QASystem) (s : QASystem) : Nat :=
  ((sharedQuestions systems).filter (fun q => sysCorrect s q)).length

/-- Maximum of a nonempty list of rationals. -/
def listMax? : List Rat → Option Rat
  | [] => none
  | x :: xs => some (xs.foldl max x)

/-- Minimum of a nonempty list of rationals. -/
def listMin? : List Rat → Option Rat
  | [] => none
  | x :: xs => some (xs.foldl min x)

/-- Definition following the spec's words, for comparison with the code: when
the oracle answer is correct its confidence is the maximum standardized
confidence among the systems that were themselves correct on that question;
when incorrect, the minimum among all contributing systems. -/
def specOracleConfidence (systems : List QASystem) (q : Nat) : Option Rat :=
  if oracleCorrect systems q then
    listMax? ((systems.filter (fun s => sysCorrect s q)).map (fun s => systemPct s q))
  else listMin? (systems.map (fun s => systemPct s q))

/-! ### Fallback combination (src/themis/analyze.py `fallback_combination`,
`_create_combined_fallback_system_at_threshold`)

The two systems' collated rows are modelled as question-keyed lists.  The
search initializes the running best to threshold 0 with precision 0 and
replaces it only on a strict precision improvement; an undefined precision
(`None`) never wins a Python-2 comparison against a number. -/

/-- Question keys of a question-keyed row list. -/
def keysOf (rows : List (Nat × SRow)) : List Nat := rows.map Prod.fst

/-- Row of a question-keyed list for a question (first match). -/
def rowsLookup (rows : List (Nat × SRow)) (q : Nat) : Option SRow :=
  (rows.find? (fun p => p.1 == q)).map Prod.snd

/-- Questions asked to both systems (`set(dq) & set(sq)`, materialized in
default-system order). -/
def intersectingQuestions (d s : List (Nat × SRow)) : List Nat :=
  (keysOf d).filter (fun q => (keysOf s).contains q)

/-- Restriction of a row list to a question set (`isin`). -/
def restrictTo (rows : List (Nat × SRow)) (qs : List Nat) : List (Nat × SRow) :=
  rows.filter (fun p => qs.contains p.1)

/-- Model of `_create_combined_fallback_system_at_threshold`: the default
system's rows at or above the threshold, plus the secondary system's rows for
every question not answered by the default part; each combined row's
confidence is replaced by its percentile rank within its own system. -/
def combineAt (d s : List (Nat × SRow)) (t : Rat) : List (Nat × SRow) :=
  let dConfs := d.map (fun p => p.2.confidence)
  let sConfs := s.map (fun p => p.2.confidence)
  let fromDefault := d.filter (fun p => decide (t ≤ p.2.confidence))
  let fromSecondary := s.filter (fun p => !(fromDefault.map Prod.fst).contains p.1)
  fromDefault.map (fun p => (p.1, { p.2 with confidence := rankPct dConfs p.2.confidence })) ++
    fromSecondary.map (fun p => (p.1, { p.2 with confidence := rankPct sConfs p.2.confidence }))

/-- Overall precision of the combined system at a candidate threshold
(`precision(combined_system, 0)`). -/
def combinedPrecision (d s : List (Nat × SRow)) (t : Rat) : Option Rat :=
  precision ((combineAt d s t).map (fun p => p.2.toJRow)) (.fin 0)

/-- Distinct values in order of first appearance (`pandas.Series.unique`). -/
def uniqueFirst : List Rat → List Rat
  | [] => []
  | x :: xs => x :: uniqueFirst (xs.filter (fun y => !(y == x)))
termination_by l => l.length
decreasing_by
  simp only [List.length_cons]
  exact Nat.lt_succ_of_le (List.length_filter_le _ _)

/-- One step of the threshold search: replace the running best only on a
strict precision improvement; `None` never beats a number (Python 2 orders
`None` below every number). -/
def fallbackStep (d s : List (Nat × SRow)) (best : Rat × Rat) (t : Rat) : Rat × Rat :=
  match combinedPrecision d s t with
  | some p => if best.2 < p then (t, p) else best
  | none => best

/-- Threshold search of `fallback_combination` over the distinct default-system
confidences, starting from `best_threshold, best_precision = 0, 0`; returns
the selected (threshold, precision) pair. -/
def fallbackSelect (d s : List (Nat × SRow)) : Rat × Rat :=
  (uniqueFirst (d.map (fun p => p.2.confidence))).foldl (fallbackStep d s) (0, 0)

/-- Whether the combined system at threshold `t` has a defined precision at
least `b` (an undefined precision compares below every number, as in the
Python 2 `None` ordering). -/
def precAtLeast (d s : List (Nat × SRow)) (b : Rat) (t : Rat) : Bool :=
  match combinedPrecision d s t with
  | some p => decide (b ≤ p)
  | none => false

/-- Model of `fallback_combination`: restrict both systems to their question
intersection, search for the best threshold, and build the combined system at
that threshold.  Returns the selected threshold and the combined rows. -/
def fallbackCombination (d s : List (Nat × SRow)) : Rat × List (Nat × SRow) :=
  let qs := intersectingQuestions d s
  let d' := restrictTo d qs
  let s' := restrictTo s qs
  let best := fallbackSelect d' s'
  (best.1, combineAt d' s' best.1)

/-! ## Theorems

General lemmas first, then one theorem per specification claim (with a
counterexample and an amended theorem where the claim fails on the code). -/

/-! ### Checkpoint state-machine lemmas -/

theorem flush_columns (s : DataFrameCheckpoint) : s.flush.columns = s.columns := rfl

theorem write_columns (s : DataFrameCheckpoint) (v : List String) :
    (s.write v).columns = s.columns := by
  unfold DataFrameCheckpoint.write
  cases s.interval <;> simp [DataFrameCheckpoint.flush] <;> split <;> rfl

theorem write_recovered (s : DataFrameCheckpoint) (v : List String) :
    (s.write v).recovered = s.recovered := by
  unfold DataFrameCheckpoint.write
  cases s.interval <;> simp [DataFrameCheckpoint.flush] <;> split <;> rfl

theorem applyOp_recovered (s : DataFrameCheckpoint) (op : CheckpointOp) :
    (applyOp s op).recovered = s.recovered := by
  cases op with
  | write v => exact write_recovered s v
  | flush => rfl
  | close => rfl

theorem applyOps_recovered (s : DataFrameCheckpoint) (ops : List CheckpointOp) :
    (applyOps s ops).recovered = s.recovered := by
  induction ops generalizing s with
  | nil => rfl
  | cons op ops ih =>
    simp only [applyOps, List.foldl_cons]
    rw [show List.foldl applyOp (applyOp s op) ops = applyOps (applyOp s op) ops from rfl,
      ih, applyOp_recovered]

/-- Write preserves the concatenation of persisted records and buffer,
appending exactly the new row. -/
theorem write_fileRecords_append (s : DataFrameCheckpoint) (v : List String) :
    (s.write v).fileRecords ++ (s.write v).buffer =
      s.fileRecords ++ s.buffer ++ [rowOf s.columns v] := by
  unfold DataFrameCheckpoint.write
  cases s.interval <;> simp [DataFrameCheckpoint.flush] <;> split <;> simp

theorem writeMany_fileRecords_append (s : DataFrameCheckpoint) (ws : List (List String)) :
    (writeMany s ws).fileRecords ++ (writeMany s ws).buffer =
      s.fileRecords ++ s.buffer ++ ws.map (rowOf s.columns) := by
  induction ws generalizing s with
  | nil => simp [writeMany]
  | cons w ws ih =>
    have hcols : (s.write w).columns = s.columns := write_columns s w
    have h := ih (s.write w)
    simp only [writeMany, List.foldl_cons] at h ⊢
    rw [h, hcols, write_fileRecords_append]
    simp

theorem writeMany_columns (s : DataFrameCheckpoint) (ws : List (List String)) :
    (writeMany s ws).columns = s.columns := by
  induction ws generalizing s with
  | nil => rfl
  | cons w ws ih =>
    simp only [writeMany, List.foldl_cons]
    rw [show List.foldl DataFrameCheckpoint.write (s.write w) ws
        = writeMany (s.write w) ws from rfl, ih, write_columns]

theorem recordKey_rowOf (cols w : List String) (hc : cols ≠ []) (hw : w ≠ []) :
    recordKey (rowOf cols w) = w.headI := by
  cases cols with
  | nil => exact absurd rfl hc
  | cons c cs =>
    cases w with
    | nil => exact absurd rfl hw
    | cons a as => simp [rowOf, recordKey]

theorem indexedFlush_buffer_nodup (s s' : IndexedJsonCheckpoint)
    (hw : s.flush = Except.ok s') (h : (s.buffer.map Prod.fst).Nodup) :
    (s'.buffer.map Prod.fst).Nodup := by
  unfold IndexedJsonCheckpoint.flush at hw
  split at hw
  · cases hw
    exact h
  · split at hw
    · cases hw
    · cases hw
      simp

theorem indexedWrite_buffer_nodup (s s' : IndexedJsonCheckpoint)
    (item : List (String × String)) (hw : s.write item = Except.ok s')
    (h : (s.buffer.map Prod.fst).Nodup) : (s'.buffer.map Prod.fst).Nodup := by
  unfold IndexedJsonCheckpoint.write at hw
  split at hw
  · cases hw
  next idx _ =>
    split at hw
    · cases hw
    next hnin =>
      have hnodup : (((s.buffer ++ [(idx, item)]).map Prod.fst)).Nodup := by
        simp only [List.map_append, List.map_cons, List.map_nil]
        rw [List.nodup_append]
        refine ⟨h, List.nodup_singleton idx, ?_⟩
        intro a ha
        simp only [List.mem_singleton]
        intro heq
        subst heq
        exact hnin (by simpa using ha)
      dsimp only at hw
      split at hw
      · split at hw
        · exact indexedFlush_buffer_nodup _ _ hw hnodup
        · cases hw
          exact hnodup
      · cases hw
        exact hnodup

/-! ### C1: checkpoint resume round-trip -/

/-- C1: a checkpoint store created on a fresh path, written with any sequence
of records, flushed, and closed, then re-opened on the same path, recovers
exactly the set of keys previously written, before any new write. -/
theorem checkpoint_resume_roundtrip (cols : List String) (interval : Option Nat)
    (writes : List (List String)) (hc : cols ≠ []) (hw : ∀ w ∈ writes, w ≠ []) :
    (openCheckpoint
        (some (((writeMany (openCheckpoint none cols interval) writes).flush).close).fileRecords)
        cols interval).recovered
      = (writes.map List.headI).toFinset := by
  have happ := writeMany_fileRecords_append (openCheckpoint none cols interval) writes
  rw [show (openCheckpoint none cols interval).columns = cols from rfl,
    show (openCheckpoint none cols interval).buffer = [] from rfl,
    show (openCheckpoint none cols interval).fileRecords = [] from rfl,
    List.append_nil, List.nil_append] at happ
  have hfile :
      (((writeMany (openCheckpoint none cols interval) writes).flush).close).fileRecords
        = writes.map (rowOf cols) := by
    simp only [DataFrameCheckpoint.close, DataFrameCheckpoint.flush, List.append_nil]
    exact happ
  show persistedKeys
      ((((writeMany (openCheckpoint none cols interval) writes).flush).close).fileRecords) = _
  rw [hfile]
  simp only [persistedKeys]
  congr 1
  rw [List.map_map]
  refine List.map_congr_left ?_
  intro w hmem
  exact recordKey_rowOf cols w hc (hw w hmem)

/-- Witness for C1 at the spec's concrete scenario: records a:1 and b:2. -/
theorem checkpoint_resume_roundtrip_witness :
    (openCheckpoint
        (some (((writeMany (openCheckpoint none ["Item", "Value"] none)
            [["a", "1"], ["b", "2"]]).flush).close).fileRecords)
        ["Item", "Value"] none).recovered
      = ([["a", "1"], ["b", "2"]].map List.headI).toFinset :=
  checkpoint_resume_roundtrip ["Item", "Value"] none [["a", "1"], ["b", "2"]]
    (by decide) (by decide)

/-! ### C2: recovered-keys invariant -/

/-- C2 counterexample: on a fresh store, after one write and a flush, the
backing file persists key a but `recovered` is still empty, so `recovered`
does not equal the persisted key set at every point of the lifecycle. -/
theorem recovered_stale_after_flush :
    (((openCheckpoint none ["Item", "Value"] none).write ["a", "1"]).flush).recovered ≠
      persistedKeys
        ((((openCheckpoint none ["Item", "Value"] none).write ["a", "1"]).flush).fileRecords) := by
  decide

/-- C2 (amended): `recovered` equals the set of keys persisted at the time the
store was opened and is never updated by later write, flush, or close
operations; and no key appears twice in the persisted store provided the file
had no duplicate keys at open and the caller writes only distinct keys that
are not in `recovered`. -/
theorem recovered_open_time_and_nodup_persisted
    (file : List (List String)) (cols : List String) (interval : Option Nat)
    (ops : List CheckpointOp) (writes : List (List String))
    (hfile : (file.map recordKey).Nodup)
    (hkeys : (writes.map (fun w => recordKey (rowOf cols w))).Nodup)
    (hdisj : ∀ w ∈ writes, recordKey (rowOf cols w) ∉ persistedKeys file) :
    (applyOps (openCheckpoint (some file) cols interval) ops).recovered = persistedKeys file ∧
    (((writeMany (openCheckpoint (some file) cols interval) writes).close).fileRecords.map
      recordKey).Nodup := by
  constructor
  · rw [applyOps_recovered]
    rfl
  · have happ := writeMany_fileRecords_append (openCheckpoint (some file) cols interval) writes
    rw [show (openCheckpoint (some file) cols interval).columns = cols from rfl,
      show (openCheckpoint (some file) cols interval).buffer = [] from rfl,
      show (openCheckpoint (some file) cols interval).fileRecords = file from rfl,
      List.append_nil] at happ
    have hfin :
        ((writeMany (openCheckpoint (some file) cols interval) writes).close).fileRecords
          = file ++ writes.map (rowOf cols) := by
      simp only [DataFrameCheckpoint.close, DataFrameCheckpoint.flush]
      exact happ
    rw [hfin, List.map_append, List.nodup_append]
    refine ⟨hfile, ?_, ?_⟩
    · rw [List.map_map]
      exact hkeys
    · intro a ha hmem
      rw [List.map_map, List.mem_map] at hmem
      obtain ⟨w, hwmem, hwkey⟩ := hmem
      refine hdisj w hwmem ?_
      rw [← hwkey] at ha
      exact List.mem_toFinset.mpr ha

/-- Witness for C2 (amended): a store opened over a file holding key a, with
one fresh write of key b followed by a flush. -/
theorem recovered_open_time_and_nodup_persisted_witness :
    (applyOps (openCheckpoint (some [["a", "1"]]) ["Item", "Value"] none)
        [CheckpointOp.write ["b", "2"], CheckpointOp.flush]).recovered
      = persistedKeys [["a", "1"]] ∧
    (((writeMany (openCheckpoint (some [["a", "1"]]) ["Item", "Value"] none)
        [["b", "2"]]).close).fileRecords.map recordKey).Nodup :=
  recovered_open_time_and_nodup_persisted [["a", "1"]] ["Item", "Value"] none
    [CheckpointOp.write ["b", "2"], CheckpointOp.flush] [["b", "2"]]
    (by decide) (by decide) (by decide)

/-! ### C3: checkpoint write-buffer deduplication -/

/-- C3 counterexample: `DataFrameCheckpoint.write` appends without any key
check, so writing key a twice leaves two records with the same key in the
in-memory buffer. -/
theorem dataframe_write_buffer_duplicate :
    ¬ ((((openCheckpoint none ["Item", "Value"] none).write ["a", "1"]).write
        ["a", "2"]).buffer.map recordKey).Nodup := by
  decide

/-- C3 (amended): `IndexedJsonCheckpoint.write` raises on a key already in
the buffer, so after any sequence of successful writes the buffer never holds
two items with the same key; `DataFrameCheckpoint.write` performs no such
check and its buffer can hold duplicates. -/
theorem indexed_write_buffer_nodup_all (items : List (List (String × String)))
    (s s' : IndexedJsonCheckpoint) (h : (s.buffer.map Prod.fst).Nodup)
    (hw : writeAllIndexed s items = Except.ok s') :
    (s'.buffer.map Prod.fst).Nodup := by
  induction items generalizing s with
  | nil =>
    unfold writeAllIndexed at hw
    cases hw
    exact h
  | cons item items ih =>
    unfold writeAllIndexed at hw
    split at hw
    · cases hw
    next s1 hws =>
      exact ih s1 (indexedWrite_buffer_nodup s s1 item hws h) hw

/-- Witness for C3 (amended): two successful writes of distinct indexes into
a fresh indexed JSON store. -/
theorem indexed_write_buffer_nodup_all_witness :
    writeAllIndexed
        { interval := none, index := "id", buffer := [], fileItems := [] }
        [[("id", "a")], [("id", "b")]]
      = Except.ok
        { interval := none, index := "id",
          buffer := [("a", [("id", "a")]), ("b", [("id", "b")])], fileItems := [] } ∧
    ((({ interval := none, index := "id",
          buffer := [("a", [("id", "a")]), ("b", [("id", "b")])],
          fileItems := [] } : IndexedJsonCheckpoint).buffer.map Prod.fst)).Nodup :=
  ⟨rfl,
    indexed_write_buffer_nodup_all [[("id", "a")], [("id", "b")]]
      { interval := none, index := "id", buffer := [], fileItems := [] }
      { interval := none, index := "id",
        buffer := [("a", [("id", "a")]), ("b", [("id", "b")])], fileItems := [] }
      (by decide) rfl⟩

/-! ### C4: retry budget respected -/

/-- C4: with an always-raising function and a positive integer budget k,
retry invokes the function exactly k times, sleeps the fixed backoff between
consecutive attempts (k - 1 sleeps), and returns normally without re-raising
the last exception. -/
theorem retry_budget_respected (f : Nat → Option String) (k : Nat)
    (hf : ∀ i, (f i).isSome) (hk : 0 < k) :
    retry f (some k) = { calls := k, sleeps := k - 1, outcome := .ok } := by
  suffices h : ∀ k i, 0 < k → retryPos f i k = { calls := k, sleeps := k - 1, outcome := .ok } by
    exact h k 0 hk
  intro k
  induction k with
  | zero => intro i h; exact absurd h (by simp)
  | succ t ih =>
    intro i _
    unfold retryPos
    cases hfi : f i with
    | none =>
      have := hf i
      rw [hfi] at this
      simp at this
    | some m =>
      by_cases ht : t = 0
      · subst ht
        simp
      · have h0 : 0 < t := Nat.pos_of_ne_zero ht
        simp only [if_pos ht]
        rw [ih (i + 1) h0]
        have h1 : t - 1 + 1 = t := Nat.succ_pred_eq_of_pos h0
        simp [h1]

/-- Witness for C4 at the spec's concrete scenario: a function that always
raises, retried 3 times. -/
theorem retry_budget_respected_witness :
    retry (fun _ => some "error") (some 3) = { calls := 3, sleeps := 2, outcome := .ok } :=
  retry_budget_respected (fun _ => some "error") 3 (fun _ => rfl) (by decide)

/-! ### Metric helper lemmas -/

theorem weightedSum_pos (rows : List JRow) (r : JRow) (hr : r ∈ rows)
    (hf : 0 < r.frequency) : 0 < weightedSum rows := by
  induction rows with
  | nil => cases hr
  | cons a l ih =>
    rcases List.mem_cons.mp hr with h | h
    · subst h
      simp only [weightedSum, List.map_cons, List.sum_cons]
      omega
    · have := ih h
      simp only [weightedSum, List.map_cons, List.sum_cons] at this ⊢
      omega

/-! ### C8: undefined precision sentinel -/

/-- C8 counterexample: the duplicate `precision` in src/themis/curves.py has
no try/except, so on a table whose only row is out of purview it raises
ZeroDivisionError instead of returning the undefined sentinel. -/
theorem curves_precision_raises_on_zero_denominator :
    curvesPrecision [{ confidence := 1, inPurview := false, correct := false, frequency := 1 }]
      (.fin 0) = Except.error "ZeroDivisionError" := rfl

/-- C8 (amended): `themis.metrics.precision` returns the undefined sentinel
`None` (not 0.0, no exception) and logs a warning whenever the
frequency-weighted in-purview denominator at the threshold is zero; the older
duplicate `themis.curves.precision` instead raises ZeroDivisionError there. -/
theorem metrics_precision_undefined_sentinel (judgments : List JRow) (t : Thresh)
    (h : weightedSum ((judgments.filter (fun r => confGE r.confidence t)).filter
      (fun r => r.inPurview)) = 0) :
    precision judgments t = none ∧ precisionWarnings judgments t ≠ [] := by
  constructor
  · simp only [precision]
    rw [if_pos h]
  · simp only [precisionWarnings]
    rw [if_pos h]
    simp

/-- Witness for C8 (amended): a single out-of-purview row at threshold 0. -/
theorem metrics_precision_undefined_sentinel_witness :
    precision [{ confidence := 1, inPurview := false, correct := false, frequency := 1 }]
        (.fin 0) = none ∧
    precisionWarnings [{ confidence := 1, inPurview := false, correct := false, frequency := 1 }]
        (.fin 0) ≠ [] :=
  metrics_precision_undefined_sentinel
    [{ confidence := 1, inPurview := false, correct := false, frequency := 1 }]
    (.fin 0) (by decide)

/-! ### C10: curve boundary values -/

/-- C10 counterexample: `questions_attempted` at +∞ on a table with no
in-purview frequency returns `None`, not 0; and on a table whose only (hence
highest-confidence) row is in-purview but incorrect, precision at the maximum
observed confidence is 0, not strictly positive. -/
theorem curve_boundary_counterexample :
    questions_attempted [] .inf = none ∧
    (precision [{ confidence := 1, inPurview := true, correct := false, frequency := 1 }]
        (.fin (maxConfidence
          [{ confidence := 1, inPurview := true, correct := false, frequency := 1 }]))
      = some 0 ∧
      ∀ r ∈ [JRow.mk 1 true false 1], r.inPurview = true) := by
  refine ⟨rfl, by norm_num [precision, maxConfidence, confGE, weightedSum, List.filter], by decide⟩

/-- C10 (amended): `questions_attempted(j, +∞)` equals 0 whenever the total
in-purview frequency of `j` is positive (it is the undefined sentinel `None`
otherwise), and `precision(j, max_confidence)` is strictly positive whenever
some row with the largest observed confidence is in purview, correct, and of
positive frequency. -/
theorem curve_boundary_values_amended (j : List JRow) :
    (0 < weightedSum (j.filter (fun x => x.inPurview)) →
      questions_attempted j .inf = some 0) ∧
    (∀ r ∈ j, r.confidence = maxConfidence j → r.inPurview = true → r.correct = true →
      0 < r.frequency →
      ∃ p, precision j (.fin (maxConfidence j)) = some p ∧ 0 < p) := by
  constructor
  · intro htotal
    simp only [questions_attempted, confGE, List.filter_false]
    rw [if_neg (by omega)]
    simp [weightedSum]
  · intro r hr hmax hp hc hf
    have hge : confGE r.confidence (.fin (maxConfidence j)) = true := by
      simp [confGE, hmax]
    have hrs : r ∈ j.filter (fun x => confGE x.confidence (.fin (maxConfidence j))) :=
      List.mem_filter.mpr ⟨hr, hge⟩
    have hnum : 0 < weightedSum ((j.filter
        (fun x => confGE x.confidence (.fin (maxConfidence j)))).filter
        (fun x => x.correct)) :=
      weightedSum_pos _ r (List.mem_filter.mpr ⟨hrs, hc⟩) hf
    have hden : 0 < weightedSum ((j.filter
        (fun x => confGE x.confidence (.fin (maxConfidence j)))).filter
        (fun x => x.inPurview)) :=
      weightedSum_pos _ r (List.mem_filter.mpr ⟨hrs, hp⟩) hf
    have heq : precision j (.fin (maxConfidence j))
        = some (((weightedSum ((j.filter
              (fun x => confGE x.confidence (.fin (maxConfidence j)))).filter
              (fun x => x.correct)) : Nat) : Rat) /
            ((weightedSum ((j.filter
              (fun x => confGE x.confidence (.fin (maxConfidence j)))).filter
              (fun x => x.inPurview)) : Nat) : Rat)) := by
      simp only [precision]
      rw [if_neg (by omega)]
    exact ⟨_, heq, div_pos (by exact_mod_cast hnum) (by exact_mod_cast hden)⟩

/-- Witness for C10 (amended): a single in-purview, correct row. -/
theorem curve_boundary_values_amended_witness :
    questions_attempted
        [{ confidence := 1, inPurview := true, correct := true, frequency := 2 }] .inf
      = some 0 ∧
    ∃ p, precision [{ confidence := 1, inPurview := true, correct := true, frequency := 2 }]
        (.fin (maxConfidence
          [{ confidence := 1, inPurview := true, correct := true, frequency := 2 }]))
      = some p ∧ 0 < p :=
  ⟨(curve_boundary_values_amended
      [{ confidence := 1, inPurview := true, correct := true, frequency := 2 }]).1
      (by decide),
   (curve_boundary_values_amended
      [{ confidence := 1, inPurview := true, correct := true, frequency := 2 }]).2
      { confidence := 1, inPurview := true, correct := true, frequency := 2 }
      (by decide) (by decide) (by decide) (by decide) (by decide)⟩

/-! ### Rank-standardization lemmas -/

theorem countEQ_pos (l : List Rat) (x : Rat) (h : x ∈ l) : 0 < countEQ l x := by
  have hmem : x ∈ l.filter (fun y => y == x) := List.mem_filter.mpr ⟨h, by simp⟩
  exact List.length_pos.mpr (List.ne_nil_of_mem hmem)

theorem countLT_add_countEQ_le_length (l : List Rat) (x : Rat) :
    countLT l x + countEQ l x ≤ l.length := by
  induction l with
  | nil => simp [countLT, countEQ]
  | cons a l ih =>
    simp only [countLT, countEQ] at ih ⊢
    by_cases h1 : a < x
    · have h2 : ¬ (a = x) := ne_of_lt h1
      simp only [List.filter_cons, decide_eq_true_eq, beq_iff_eq, h1, h2, if_true, if_false,
        List.length_cons]
      omega
    · by_cases h2 : a = x
      · subst h2
        simp only [List.filter_cons, decide_eq_true_eq, beq_iff_eq, lt_self_iff_false,
          eq_self_iff_true, if_true, if_false, List.length_cons]
        omega
      · simp only [List.filter_cons, decide_eq_true_eq, beq_iff_eq, h1, h2, if_false,
          List.length_cons]
        omega

theorem countLT_countEQ_le (l : List Rat) {x y : Rat} (h : x < y) :
    countLT l x + countEQ l x ≤ countLT l y := by
  induction l with
  | nil => simp [countLT, countEQ]
  | cons a l ih =>
    simp only [countLT, countEQ] at ih ⊢
    by_cases h1 : a < x
    · have h2 : ¬ (a = x) := ne_of_lt h1
      have h3 : a < y := h1.trans h
      simp only [List.filter_cons, decide_eq_true_eq, beq_iff_eq, h1, h2, h3, if_true, if_false,
        List.length_cons]
      omega
    · by_cases h2 : a = x
      · subst h2
        simp only [List.filter_cons, decide_eq_true_eq, beq_iff_eq, lt_self_iff_false,
          eq_self_iff_true, h, if_true, if_false, List.length_cons]
        omega
      · by_cases h3 : a < y
        · simp only [List.filter_cons, decide_eq_true_eq, beq_iff_eq, h1, h2, h3, if_true,
            if_false, List.length_cons]
          omega
        · simp only [List.filter_cons, decide_eq_true_eq, beq_iff_eq, h1, h2, h3, if_false,
            List.length_cons]
          omega

theorem rankPct_mono (l : List Rat) {x y : Rat} (hxy : x ≤ y) :
    rankPct l x ≤ rankPct l y := by
  rcases eq_or_lt_of_le hxy with heq | hlt
  · rw [heq]
  · unfold rankPct
    rcases Nat.eq_zero_or_pos l.length with hn | hn
    · rw [hn]
      simp
    · have hnum := countLT_countEQ_le l hlt
      have hx : (countLT l x : Rat) + (countEQ l x : Rat) ≤ (countLT l y : Rat) := by
        exact_mod_cast hnum
      have hex : (0 : Rat) ≤ (countEQ l x : Rat) := by positivity
      have hey : (0 : Rat) ≤ (countEQ l y : Rat) := by positivity
      have hn' : (0 : Rat) < (l.length : Rat) := by exact_mod_cast hn
      have h1 : ((countLT l x : Rat) + (1 + (countEQ l x : Rat)) / 2)
          ≤ ((countLT l y : Rat) + (1 + (countEQ l y : Rat)) / 2) := by linarith
      exact div_le_div_of_nonneg_right h1 hn'.le

theorem rankPct_range (l : List Rat) (x : Rat) (h : x ∈ l) :
    0 < rankPct l x ∧ rankPct l x ≤ 1 := by
  have hn : 0 < l.length := List.length_pos.mpr (List.ne_nil_of_mem h)
  have hn' : (0 : Rat) < (l.length : Rat) := by exact_mod_cast hn
  have hex : 1 ≤ countEQ l x := countEQ_pos l x h
  have hex' : (1 : Rat) ≤ (countEQ l x : Rat) := by exact_mod_cast hex
  have hle : countLT l x + countEQ l x ≤ l.length := countLT_add_countEQ_le_length l x
  have hle' : (countLT l x : Rat) + (countEQ l x : Rat) ≤ (l.length : Rat) := by
    exact_mod_cast hle
  have hcx : (0 : Rat) ≤ (countLT l x : Rat) := by positivity
  constructor
  · apply div_pos ?_ hn'
    have : (0 : Rat) < (1 + (countEQ l x : Rat)) / 2 := by linarith
    linarith
  · rw [rankPct, div_le_one hn']
    linarith

/-! ### C9: rank-mode standardization range and monotonicity -/

/-- C9: for every single-system judgment table, rank-standardized confidence
lies in (0,1] for every row, rows with equal raw confidence get equal
standardized confidence, and standardization preserves the raw ordering. -/
theorem rank_standardization_range_monotone (system : List JRow) :
    (∀ r ∈ system, 0 < rankPct (system.map JRow.confidence) r.confidence ∧
      rankPct (system.map JRow.confidence) r.confidence ≤ 1) ∧
    (∀ r ∈ system, ∀ r' ∈ system, r.confidence = r'.confidence →
      rankPct (system.map JRow.confidence) r.confidence
        = rankPct (system.map JRow.confidence) r'.confidence) ∧
    (∀ r ∈ system, ∀ r' ∈ system, r.confidence ≤ r'.confidence →
      rankPct (system.map JRow.confidence) r.confidence
        ≤ rankPct (system.map JRow.confidence) r'.confidence) := by
  refine ⟨?_, ?_, ?_⟩
  · intro r hr
    exact rankPct_range _ _ (List.mem_map_of_mem JRow.confidence hr)
  · intro r _ r' _ heq
    rw [heq]
  · intro r _ r' _ hle
    exact rankPct_mono _ hle

/-- Witness for C9 on a two-row system with confidences 2 and 3. -/
theorem rank_standardization_range_monotone_witness :
    0 < rankPct ([JRow.mk 2 true true 1, JRow.mk 3 true false 1].map JRow.confidence) 2 ∧
    rankPct ([JRow.mk 2 true true 1, JRow.mk 3 true false 1].map JRow.confidence) 2 ≤ 1 :=
  (rank_standardization_range_monotone [JRow.mk 2 true true 1, JRow.mk 3 true false 1]).1
    (JRow.mk 2 true true 1) (by decide)

/-! ### Oracle lemmas -/

theorem foldl_or_eq (bs : List Bool) (b : Bool) : bs.foldl (· || ·) b = (b || bs.any id) := by
  induction bs generalizing b with
  | nil => simp
  | cons c cs ih =>
    simp only [List.foldl_cons, List.any_cons, id]
    rw [ih (b || c), Bool.or_assoc]

theorem reduceOr_eq_any (l : List Bool) : reduceOr l = l.any id := by
  cases l with
  | nil => rfl
  | cons b bs =>
    simp only [reduceOr, List.any_cons, id]
    rw [foldl_or_eq]

theorem length_filter_mono {α : Type} (l : List α) (p q : α → Bool)
    (h : ∀ a ∈ l, p a = true → q a = true) :
    (l.filter p).length ≤ (l.filter q).length := by
  induction l with
  | nil => simp
  | cons a l ih =>
    have ih' := ih (fun a ha => h a (List.mem_cons_of_mem _ ha))
    simp only [List.filter_cons]
    by_cases hp : p a = true
    · rw [if_pos hp, if_pos (h a (List.mem_cons_self a l) hp)]
      simpa using ih'
    · rw [if_neg hp]
      split
      · exact ih'.trans (Nat.le_succ _)
      · exact ih'

theorem foldl_max_pair (p : String × Rat) (ps : List (String × Rat)) :
    (∀ x ∈ p :: ps, x.2 ≤ (ps.foldl (fun m x => if m.2 < x.2 then x else m) p).2) ∧
    (p :: ps).find?
        (fun x => decide ((ps.foldl (fun m x => if m.2 < x.2 then x else m) p).2 ≤ x.2))
      = some (ps.foldl (fun m x => if m.2 < x.2 then x else m) p) := by
  induction ps generalizing p with
  | nil =>
    constructor
    · intro x hx
      rcases List.mem_singleton.mp hx with rfl
      exact le_refl _
    · simp [List.find?]
  | cons a ps ih =>
    simp only [List.foldl_cons]
    by_cases h : p.2 < a.2
    · simp only [if_pos h]
      obtain ⟨ihb, ihf⟩ := ih a
      set r := ps.foldl (fun m x => if m.2 < x.2 then x else m) a with hr
      have hpr : p.2 < r.2 := lt_of_lt_of_le h (ihb a (List.mem_cons_self a ps))
      constructor
      · intro x hx
        rcases List.mem_cons.mp hx with rfl | hx
        · exact hpr.le
        · exact ihb x hx
      · rw [List.find?_cons_of_neg, ihf]
        simp only [decide_eq_true_eq]
        exact not_le.mpr hpr
    · simp only [if_neg h]
      obtain ⟨ihb, ihf⟩ := ih p
      set r := ps.foldl (fun m x => if m.2 < x.2 then x else m) p with hr
      have har : a.2 ≤ r.2 := le_trans (not_lt.mp h) (ihb p (List.mem_cons_self p ps))
      constructor
      · intro x hx
        rcases List.mem_cons.mp hx with rfl | hx
        · exact ihb _ (List.mem_cons_self _ ps)
        · rcases List.mem_cons.mp hx with rfl | hx
          · exact har
          · exact ihb x (List.mem_cons_of_mem p hx)
      · by_cases hp : (decide (r.2 ≤ p.2)) = true
        · rw [@List.find?_cons_of_pos _ (fun x => decide (r.2 ≤ x.2)) p ps hp] at ihf
          rw [@List.find?_cons_of_pos _ (fun x => decide (r.2 ≤ x.2)) p (a :: ps) hp]
          exact ihf
        · rw [@List.find?_cons_of_neg _ (fun x => decide (r.2 ≤ x.2)) p ps hp] at ihf
          rw [@List.find?_cons_of_neg _ (fun x => decide (r.2 ≤ x.2)) p (a :: ps) hp,
            List.find?_cons_of_neg, ihf]
          simp only [decide_eq_true_eq] at hp ⊢
          intro hra
          exact hp (le_trans hra (not_lt.mp h))

theorem foldl_min_pair (p : String × Rat) (ps : List (String × Rat)) :
    (∀ x ∈ p :: ps, (ps.foldl (fun m x => if x.2 < m.2 then x else m) p).2 ≤ x.2) ∧
    (p :: ps).find?
        (fun x => decide (x.2 ≤ (ps.foldl (fun m x => if x.2 < m.2 then x else m) p).2))
      = some (ps.foldl (fun m x => if x.2 < m.2 then x else m) p) := by
  induction ps generalizing p with
  | nil =>
    constructor
    · intro x hx
      rcases List.mem_singleton.mp hx with rfl
      exact le_refl _
    · simp [List.find?]
  | cons a ps ih =>
    simp only [List.foldl_cons]
    by_cases h : a.2 < p.2
    · simp only [if_pos h]
      obtain ⟨ihb, ihf⟩ := ih a
      set r := ps.foldl (fun m x => if x.2 < m.2 then x else m) a with hr
      have hpr : r.2 < p.2 := lt_of_le_of_lt (ihb a (List.mem_cons_self a ps)) h
      constructor
      · intro x hx
        rcases List.mem_cons.mp hx with rfl | hx
        · exact hpr.le
        · exact ihb x hx
      · rw [List.find?_cons_of_neg, ihf]
        simp only [decide_eq_true_eq]
        exact not_le.mpr hpr
    · simp only [if_neg h]
      obtain ⟨ihb, ihf⟩ := ih p
      set r := ps.foldl (fun m x => if x.2 < m.2 then x else m) p with hr
      have har : r.2 ≤ a.2 := le_trans (ihb p (List.mem_cons_self p ps)) (not_lt.mp h)
      constructor
      · intro x hx
        rcases List.mem_cons.mp hx with rfl | hx
        · exact ihb _ (List.mem_cons_self _ ps)
        · rcases List.mem_cons.mp hx with rfl | hx
          · exact har
          · exact ihb x (List.mem_cons_of_mem p hx)
      · by_cases hp : (decide (p.2 ≤ r.2)) = true
        · rw [@List.find?_cons_of_pos _ (fun x => decide (x.2 ≤ r.2)) p ps hp] at ihf
          rw [@List.find?_cons_of_pos _ (fun x => decide (x.2 ≤ r.2)) p (a :: ps) hp]
          exact ihf
        · rw [@List.find?_cons_of_neg _ (fun x => decide (x.2 ≤ r.2)) p ps hp] at ihf
          rw [@List.find?_cons_of_neg _ (fun x => decide (x.2 ≤ r.2)) p (a :: ps) hp,
            List.find?_cons_of_neg, ihf]
          simp only [decide_eq_true_eq] at hp ⊢
          intro hra
          exact hp (le_trans (not_lt.mp h) hra)

/-! ### C5: oracle correctness -/

/-- C5: on each question asked to all contributing systems, the oracle row is
correct iff at least one contributing system's row is correct; consequently
the oracle's correct count on the shared-question intersection is at least
every single system's correct count there. -/
theorem oracle_correct_iff_any_and_lower_bound (systems : List QASystem) :
    (∀ q : Nat, (∀ s ∈ systems, hasQ s q = true) →
      (oracleCorrect systems q = true ↔ ∃ s ∈ systems, sysCorrect s q = true)) ∧
    (∀ s ∈ systems, systemCorrectCount systems s ≤ oracleCorrectCount systems) := by
  have hany : ∀ q : Nat, oracleCorrect systems q = true ↔ ∃ s ∈ systems, sysCorrect s q = true := by
    intro q
    unfold oracleCorrect
    rw [reduceOr_eq_any]
    simp [List.any_eq_true, List.mem_map]
  constructor
  · intro q _
    exact hany q
  · intro s hs
    unfold systemCorrectCount oracleCorrectCount
    apply length_filter_mono
    intro q _ hcorr
    exact (hany q).mpr ⟨s, hs, hcorr⟩

/-- Witness for C5 on the spec's two-system scenario (system A correct on
question 2, system B correct on question 1). -/
theorem oracle_correct_iff_any_and_lower_bound_witness :
    (oracleCorrect
        [QASystem.mk "A" [(1, SRow.mk "a1" 9 true false 1), (2, SRow.mk "a2" 1 true true 1)],
         QASystem.mk "B" [(1, SRow.mk "b1" 2 true true 1), (2, SRow.mk "b2" 8 true false 1)]]
        1 = true ↔
      ∃ s ∈ [QASystem.mk "A" [(1, SRow.mk "a1" 9 true false 1), (2, SRow.mk "a2" 1 true true 1)],
         QASystem.mk "B" [(1, SRow.mk "b1" 2 true true 1), (2, SRow.mk "b2" 8 true false 1)]],
        sysCorrect s 1 = true) ∧
    systemCorrectCount
        [QASystem.mk "A" [(1, SRow.mk "a1" 9 true false 1), (2, SRow.mk "a2" 1 true true 1)],
         QASystem.mk "B" [(1, SRow.mk "b1" 2 true true 1), (2, SRow.mk "b2" 8 true false 1)]]
        (QASystem.mk "A" [(1, SRow.mk "a1" 9 true false 1), (2, SRow.mk "a2" 1 true true 1)])
      ≤ oracleCorrectCount
        [QASystem.mk "A" [(1, SRow.mk "a1" 9 true false 1), (2, SRow.mk "a2" 1 true true 1)],
         QASystem.mk "B" [(1, SRow.mk "b1" 2 true true 1), (2, SRow.mk "b2" 8 true false 1)]] :=
  ⟨(oracle_correct_iff_any_and_lower_bound
      [QASystem.mk "A" [(1, SRow.mk "a1" 9 true false 1), (2, SRow.mk "a2" 1 true true 1)],
       QASystem.mk "B" [(1, SRow.mk "b1" 2 true true 1), (2, SRow.mk "b2" 8 true false 1)]]).1
      1 (by decide),
   (oracle_correct_iff_any_and_lower_bound
      [QASystem.mk "A" [(1, SRow.mk "a1" 9 true false 1), (2, SRow.mk "a2" 1 true true 1)],
       QASystem.mk "B" [(1, SRow.mk "b1" 2 true true 1), (2, SRow.mk "b2" 8 true false 1)]]).2
      (QASystem.mk "A" [(1, SRow.mk "a1" 9 true false 1), (2, SRow.mk "a2" 1 true true 1)])
      (by decide)⟩

/-! ### C6: oracle confidence provenance -/

/-- C6 counterexample: two systems on question 1, where system A is incorrect
with standardized confidence 1 and system B is correct with standardized
confidence 1/2.  The oracle is correct on the question, yet the code reports
confidence 1 with provenance A — the maximum over ALL systems — while the
spec's rule (maximum among the systems that were correct) gives 1/2 from B. -/
theorem oracle_confidence_not_among_correct :
    oracleCorrect
        [QASystem.mk "A" [(1, SRow.mk "a1" 9 true false 1), (2, SRow.mk "a2" 1 true true 1)],
         QASystem.mk "B" [(1, SRow.mk "b1" 2 true true 1), (2, SRow.mk "b2" 8 true false 1)]]
        1 = true ∧
    sysCorrect
        (QASystem.mk "A" [(1, SRow.mk "a1" 9 true false 1), (2, SRow.mk "a2" 1 true true 1)])
        1 = false ∧
    oracleConfidence
        [QASystem.mk "A" [(1, SRow.mk "a1" 9 true false 1), (2, SRow.mk "a2" 1 true true 1)],
         QASystem.mk "B" [(1, SRow.mk "b1" 2 true true 1), (2, SRow.mk "b2" 8 true false 1)]]
        1 = 1 ∧
    oracleAnsweringSystem
        [QASystem.mk "A" [(1, SRow.mk "a1" 9 true false 1), (2, SRow.mk "a2" 1 true true 1)],
         QASystem.mk "B" [(1, SRow.mk "b1" 2 true true 1), (2, SRow.mk "b2" 8 true false 1)]]
        1 = some "A" ∧
    specOracleConfidence
        [QASystem.mk "A" [(1, SRow.mk "a1" 9 true false 1), (2, SRow.mk "a2" 1 true true 1)],
         QASystem.mk "B" [(1, SRow.mk "b1" 2 true true 1), (2, SRow.mk "b2" 8 true false 1)]]
        1 = some (1/2) := by
  refine ⟨by decide, by decide, ?_, ?_, ?_⟩
  · norm_num [oracleConfidence, oracleCorrect, reduceOr, sysCorrect, lookupRow, List.find?,
      pctPairs, systemPct, rankPct, countLT, countEQ, rowMax, List.filter, weightedSum]
  · norm_num [oracleAnsweringSystem, oracleCorrect, reduceOr, sysCorrect, lookupRow, List.find?,
      pctPairs, systemPct, rankPct, countLT, countEQ, rowMax, List.filter, weightedSum]
  · norm_num [specOracleConfidence, oracleCorrect, reduceOr, sysCorrect, lookupRow, List.find?,
      listMax?, systemPct, rankPct, countLT, countEQ, List.filter, weightedSum]

/-- C6 (amended): the oracle confidence is the row maximum of the
rank-standardized confidences over ALL contributing systems when the oracle is
correct, and the row minimum over all systems when incorrect; its provenance
is the first system in input order attaining that extremum. -/
theorem oracle_confidence_max_over_all_systems (systems : List QASystem) (q : Nat)
    (hne : systems ≠ []) :
    ∃ pr : String × Rat,
      oracleConfidence systems q = pr.2 ∧
      oracleAnsweringSystem systems q = some pr.1 ∧
      (oracleCorrect systems q = true →
        (∀ x ∈ pctPairs systems q, x.2 ≤ pr.2) ∧
        (pctPairs systems q).find? (fun x => decide (pr.2 ≤ x.2)) = some pr) ∧
      (oracleCorrect systems q = false →
        (∀ x ∈ pctPairs systems q, pr.2 ≤ x.2) ∧
        (pctPairs systems q).find? (fun x => decide (x.2 ≤ pr.2)) = some pr) := by
  rcases systems with _ | ⟨s, ss⟩
  · exact absurd rfl hne
  cases hc : oracleCorrect (s :: ss) q with
  | true =>
    obtain ⟨hb, hf⟩ := foldl_max_pair (s.name, systemPct s q)
      (ss.map (fun s => (s.name, systemPct s q)))
    refine ⟨(ss.map (fun s => (s.name, systemPct s q))).foldl
        (fun m x => if m.2 < x.2 then x else m) (s.name, systemPct s q), ?_, ?_, ?_, ?_⟩
    · simp only [oracleConfidence, hc]
      rfl
    · simp only [oracleAnsweringSystem, hc]
      rfl
    · intro _
      exact ⟨hb, hf⟩
    · intro hfalse
      exact Bool.noConfusion hfalse
  | false =>
    obtain ⟨hb, hf⟩ := foldl_min_pair (s.name, systemPct s q)
      (ss.map (fun s => (s.name, systemPct s q)))
    refine ⟨(ss.map (fun s => (s.name, systemPct s q))).foldl
        (fun m x => if x.2 < m.2 then x else m) (s.name, systemPct s q), ?_, ?_, ?_, ?_⟩
    · simp only [oracleConfidence, hc]
      rfl
    · simp only [oracleAnsweringSystem, hc]
      rfl
    · intro htrue
      exact Bool.noConfusion htrue
    · intro _
      exact ⟨hb, hf⟩

/-- Witness for C6 (amended) at the counterexample's two systems, question 1. -/
theorem oracle_confidence_max_over_all_systems_witness :
    ∃ pr : String × Rat,
      oracleConfidence
          [QASystem.mk "A" [(1, SRow.mk "a1" 9 true false 1), (2, SRow.mk "a2" 1 true true 1)],
           QASystem.mk "B" [(1, SRow.mk "b1" 2 true true 1), (2, SRow.mk "b2" 8 true false 1)]]
          1 = pr.2 ∧
      oracleAnsweringSystem
          [QASystem.mk "A" [(1, SRow.mk "a1" 9 true false 1), (2, SRow.mk "a2" 1 true true 1)],
           QASystem.mk "B" [(1, SRow.mk "b1" 2 true true 1), (2, SRow.mk "b2" 8 true false 1)]]
          1 = some pr.1 ∧
      (oracleCorrect
          [QASystem.mk "A" [(1, SRow.mk "a1" 9 true false 1), (2, SRow.mk "a2" 1 true true 1)],
           QASystem.mk "B" [(1, SRow.mk "b1" 2 true true 1), (2, SRow.mk "b2" 8 true false 1)]]
          1 = true →
        (∀ x ∈ pctPairs
            [QASystem.mk "A" [(1, SRow.mk "a1" 9 true false 1), (2, SRow.mk "a2" 1 true true 1)],
             QASystem.mk "B" [(1, SRow.mk "b1" 2 true true 1), (2, SRow.mk "b2" 8 true false 1)]]
            1, x.2 ≤ pr.2) ∧
        (pctPairs
            [QASystem.mk "A" [(1, SRow.mk "a1" 9 true false 1), (2, SRow.mk "a2" 1 true true 1)],
             QASystem.mk "B" [(1, SRow.mk "b1" 2 true true 1), (2, SRow.mk "b2" 8 true false 1)]]
            1).find? (fun x => decide (pr.2 ≤ x.2)) = some pr) ∧
      (oracleCorrect
          [QASystem.mk "A" [(1, SRow.mk "a1" 9 true false 1), (2, SRow.mk "a2" 1 true true 1)],
           QASystem.mk "B" [(1, SRow.mk "b1" 2 true true 1), (2, SRow.mk "b2" 8 true false 1)]]
          1 = false →
        (∀ x ∈ pctPairs
            [QASystem.mk "A" [(1, SRow.mk "a1" 9 true false 1), (2, SRow.mk "a2" 1 true true 1)],
             QASystem.mk "B" [(1, SRow.mk "b1" 2 true true 1), (2, SRow.mk "b2" 8 true false 1)]]
            1, pr.2 ≤ x.2) ∧
        (pctPairs
            [QASystem.mk "A" [(1, SRow.mk "a1" 9 true false 1), (2, SRow.mk "a2" 1 true true 1)],
             QASystem.mk "B" [(1, SRow.mk "b1" 2 true true 1), (2, SRow.mk "b2" 8 true false 1)]]
            1).find? (fun x => decide (x.2 ≤ pr.2)) = some pr) :=
  oracle_confidence_max_over_all_systems
    [QASystem.mk "A" [(1, SRow.mk "a1" 9 true false 1), (2, SRow.mk "a2" 1 true true 1)],
     QASystem.mk "B" [(1, SRow.mk "b1" 2 true true 1), (2, SRow.mk "b2" 8 true false 1)]]
    1 (by decide)

/-! ### Fallback-combination lemmas -/

/-- Characterization of the threshold-search fold: the final best precision
dominates every defined precision among the candidates, never drops below the
initial best, and either nothing strictly improved on the initial best (the
result is the initial pair) or the result's threshold is the first candidate
attaining the final best precision. -/
theorem fallbackSelect_fold_spec (d s : List (Nat × SRow)) (l : List Rat) (b : Rat × Rat) :
    (∀ t ∈ l, ∀ p, combinedPrecision d s t = some p → p ≤ (l.foldl (fallbackStep d s) b).2) ∧
    b.2 ≤ (l.foldl (fallbackStep d s) b).2 ∧
    ((l.foldl (fallbackStep d s) b) = b ∧
        (∀ t ∈ l, ∀ p, combinedPrecision d s t = some p → p ≤ b.2) ∨
      (combinedPrecision d s (l.foldl (fallbackStep d s) b).1
          = some (l.foldl (fallbackStep d s) b).2 ∧
        b.2 < (l.foldl (fallbackStep d s) b).2 ∧
        l.find? (precAtLeast d s (l.foldl (fallbackStep d s) b).2)
          = some (l.foldl (fallbackStep d s) b).1)) := by
  induction l generalizing b with
  | nil =>
    refine ⟨by simp, le_refl _, Or.inl ⟨rfl, by simp⟩⟩
  | cons t l ih =>
    simp only [List.foldl_cons]
    cases hct : combinedPrecision d s t with
    | none =>
      have hstep : fallbackStep d s b t = b := by
        simp only [fallbackStep, hct]
      rw [hstep]
      obtain ⟨ih1, ih2, ih3⟩ := ih b
      refine ⟨?_, ih2, ?_⟩
      · intro t' ht' p hp
        rcases List.mem_cons.mp ht' with rfl | ht'
        · rw [hct] at hp
          cases hp
        · exact ih1 t' ht' p hp
      · rcases ih3 with ⟨heq, hall⟩ | ⟨hsome, hlt, hfind⟩
        · refine Or.inl ⟨heq, ?_⟩
          intro t' ht' p hp
          rcases List.mem_cons.mp ht' with rfl | ht'
          · rw [hct] at hp
            cases hp
          · exact hall t' ht' p hp
        · refine Or.inr ⟨hsome, hlt, ?_⟩
          rw [List.find?_cons_of_neg, hfind]
          simp [precAtLeast, hct]
    | some p =>
      by_cases hbp : b.2 < p
      · have hstep : fallbackStep d s b t = (t, p) := by
          simp only [fallbackStep, hct, if_pos hbp]
        rw [hstep]
        obtain ⟨ih1, ih2, ih3⟩ := ih (t, p)
        have hple : p ≤ (l.foldl (fallbackStep d s) (t, p)).2 := ih2
        refine ⟨?_, le_of_lt (lt_of_lt_of_le hbp hple), Or.inr ?_⟩
        · intro t' ht' q hq
          rcases List.mem_cons.mp ht' with rfl | ht'
          · rw [hct] at hq
            cases hq
            exact hple
          · exact ih1 t' ht' q hq
        · rcases ih3 with ⟨heq, hall⟩ | ⟨hsome, hlt, hfind⟩
          · rw [heq]
            refine ⟨hct, hbp, ?_⟩
            rw [List.find?_cons_of_pos]
            simp [precAtLeast, hct]
          · refine ⟨hsome, lt_trans hbp hlt, ?_⟩
            rw [List.find?_cons_of_neg, hfind]
            simp only [precAtLeast, hct, decide_eq_true_eq]
            exact not_le.mpr hlt
      · have hstep : fallbackStep d s b t = b := by
          simp only [fallbackStep, hct, if_neg hbp]
        rw [hstep]
        obtain ⟨ih1, ih2, ih3⟩ := ih b
        refine ⟨?_, ih2, ?_⟩
        · intro t' ht' q hq
          rcases List.mem_cons.mp ht' with rfl | ht'
          · rw [hct] at hq
            cases hq
            exact le_trans (not_lt.mp hbp) ih2
          · exact ih1 t' ht' q hq
        · rcases ih3 with ⟨heq, hall⟩ | ⟨hsome, hlt, hfind⟩
          · refine Or.inl ⟨heq, ?_⟩
            intro t' ht' q hq
            rcases List.mem_cons.mp ht' with rfl | ht'
            · rw [hct] at hq
              cases hq
              exact not_lt.mp hbp
            · exact hall t' ht' q hq
          · refine Or.inr ⟨hsome, hlt, ?_⟩
            rw [List.find?_cons_of_neg, hfind]
            simp only [precAtLeast, hct, decide_eq_true_eq]
            intro hle
            exact hbp (lt_of_lt_of_le hlt hle)

theorem rowsLookup_mem (rows : List (Nat × SRow)) (q : Nat) (r : SRow)
    (h : rowsLookup rows q = some r) : (q, r) ∈ rows := by
  unfold rowsLookup at h
  cases hf : rows.find? (fun p => p.1 == q) with
  | none =>
    rw [hf] at h
    cases h
  | some a =>
    rw [hf] at h
    have hmem := List.mem_of_find?_eq_some hf
    have hpred := List.find?_some hf
    simp only [Option.map_some'] at h
    have hr : a.2 = r := Option.some.inj h
    have hq : a.1 = q := by simpa using hpred
    have : a = (q, r) := by
      rw [← hq, ← hr]
    rw [← this]
    exact hmem

theorem key_unique (l : List (Nat × SRow)) (q : Nat) (x y : SRow)
    (hn : (l.map Prod.fst).Nodup) (hx : (q, x) ∈ l) (hy : (q, y) ∈ l) : x = y := by
  induction l with
  | nil => cases hx
  | cons a l ih =>
    simp only [List.map_cons, List.nodup_cons] at hn
    rcases List.mem_cons.mp hx with hax | hx'
    · rcases List.mem_cons.mp hy with hay | hy'
      · exact congrArg Prod.snd (hax.trans hay.symm)
      · exfalso
        have hq : q ∈ List.map Prod.fst l := List.mem_map_of_mem Prod.fst hy'
        have ha1 : a.1 = q := (congrArg Prod.fst hax).symm
        exact hn.1 (by rw [ha1]; exact hq)
    · rcases List.mem_cons.mp hy with hay | hy'
      · exfalso
        have hq : q ∈ List.map Prod.fst l := List.mem_map_of_mem Prod.fst hx'
        have ha1 : a.1 = q := (congrArg Prod.fst hay).symm
        exact hn.1 (by rw [ha1]; exact hq)
      · exact ih hn.2 hx' hy'

theorem find?_key_of_nodup (l : List (Nat × SRow)) (q : Nat) (x : SRow)
    (hn : (l.map Prod.fst).Nodup) (hm : (q, x) ∈ l) :
    l.find? (fun p => p.1 == q) = some (q, x) := by
  induction l with
  | nil => cases hm
  | cons a l ih =>
    simp only [List.map_cons, List.nodup_cons] at hn
    rcases List.mem_cons.mp hm with hax | hm'
    · subst hax
      rw [List.find?_cons_of_pos]
      simp
    · have hane : ¬ ((fun p : Nat × SRow => p.1 == q) a = true) := by
        simp only [beq_iff_eq]
        intro haq
        apply hn.1
        rw [haq]
        exact List.mem_map_of_mem Prod.fst hm'
      rw [@List.find?_cons_of_neg _ (fun p : Nat × SRow => p.1 == q) a l hane]
      exact ih hn.2 hm'

theorem nodup_keys_filter (l : List (Nat × SRow)) (p : Nat × SRow → Bool)
    (h : (l.map Prod.fst).Nodup) : ((l.filter p).map Prod.fst).Nodup :=
  ((List.filter_sublist l).map Prod.fst).nodup h

/-- Routing of `_create_combined_fallback_system_at_threshold`: a question
answered by both systems is answered in the combined system by the default
system's row (with percentile confidence) when the default confidence is at
or above the threshold, and by the secondary system's row otherwise. -/
theorem combineAt_routing (d s : List (Nat × SRow)) (t : Rat)
    (hd : (keysOf d).Nodup) (hs : (keysOf s).Nodup)
    (q : Nat) (dr sr : SRow)
    (hdq : rowsLookup d q = some dr) (hsq : rowsLookup s q = some sr) :
    (t ≤ dr.confidence →
      rowsLookup (combineAt d s t) q
        = some { dr with
            confidence := rankPct (d.map (fun p : Nat × SRow => p.2.confidence)) dr.confidence }) ∧
    (¬ t ≤ dr.confidence →
      rowsLookup (combineAt d s t) q
        = some { sr with
            confidence := rankPct (s.map (fun p : Nat × SRow => p.2.confidence)) sr.confidence }) := by
  have hdm : (q, dr) ∈ d := rowsLookup_mem d q dr hdq
  have hsm : (q, sr) ∈ s := rowsLookup_mem s q sr hsq
  have hkeysd : (((d.filter (fun p : Nat × SRow => decide (t ≤ p.2.confidence))).map
      (fun p : Nat × SRow => (p.1, { p.2 with
        confidence := rankPct (d.map (fun p : Nat × SRow => p.2.confidence)) p.2.confidence }))).map
      Prod.fst).Nodup := by
    rw [List.map_map]
    exact nodup_keys_filter d _ hd
  constructor
  · intro hge
    have hmemf : (q, dr) ∈ d.filter (fun p : Nat × SRow => decide (t ≤ p.2.confidence)) :=
      List.mem_filter.mpr ⟨hdm, by simpa using hge⟩
    have hmem' : (q, { dr with
        confidence := rankPct (d.map (fun p : Nat × SRow => p.2.confidence)) dr.confidence })
        ∈ (d.filter (fun p : Nat × SRow => decide (t ≤ p.2.confidence))).map
          (fun p : Nat × SRow => (p.1, { p.2 with
            confidence := rankPct (d.map (fun p : Nat × SRow => p.2.confidence)) p.2.confidence })) :=
      List.mem_map_of_mem _ hmemf
    simp only [rowsLookup, combineAt]
    rw [List.find?_append, find?_key_of_nodup _ q _ hkeysd hmem']
    rfl
  · intro hlt
    have hqnot : ∀ p ∈ d.filter (fun p : Nat × SRow => decide (t ≤ p.2.confidence)), (p.1 == q) = false := by
      intro p hp
      rcases List.mem_filter.mp hp with ⟨hpd, hpt⟩
      cases hpq : (p.1 == q) with
      | false => rfl
      | true =>
        exfalso
        have hp1 : p.1 = q := by simpa using hpq
        have hpmem : (q, p.2) ∈ d := by
          rw [← hp1]
          exact hpd
        have heq2 : p.2 = dr := key_unique d q p.2 dr hd hpmem hdm
        rw [heq2] at hpt
        exact hlt (by simpa using hpt)
    have hfirst : ((d.filter (fun p : Nat × SRow => decide (t ≤ p.2.confidence))).map
        (fun p : Nat × SRow => (p.1, { p.2 with
          confidence := rankPct (d.map (fun p : Nat × SRow => p.2.confidence)) p.2.confidence }))).find?
        (fun p => p.1 == q) = none := by
      rw [List.find?_eq_none]
      intro x hx
      rcases List.mem_map.mp hx with ⟨p, hp, rfl⟩
      intro habs
      rw [hqnot p hp] at habs
      cases habs
    have hcont : ((d.filter (fun p : Nat × SRow => decide (t ≤ p.2.confidence))).map
        Prod.fst).contains q = false := by
      cases hc : ((d.filter (fun p : Nat × SRow => decide (t ≤ p.2.confidence))).map
          Prod.fst).contains q with
      | false => rfl
      | true =>
        exfalso
        have hqin := List.elem_iff.mp hc
        rcases List.mem_map.mp hqin with ⟨p, hp, hp1⟩
        have := hqnot p hp
        rw [show (p.1 == q) = true by simpa using hp1] at this
        cases this
    have hmemsf : (q, sr) ∈ s.filter (fun p : Nat × SRow =>
        !((d.filter (fun p : Nat × SRow => decide (t ≤ p.2.confidence))).map Prod.fst).contains p.1) :=
      List.mem_filter.mpr ⟨hsm, by rw [show ((q, sr).1 : Nat) = q from rfl, hcont]; rfl⟩
    have hmem' : (q, { sr with
        confidence := rankPct (s.map (fun p : Nat × SRow => p.2.confidence)) sr.confidence })
        ∈ (s.filter (fun p : Nat × SRow =>
            !((d.filter (fun p : Nat × SRow => decide (t ≤ p.2.confidence))).map Prod.fst).contains p.1)).map
          (fun p : Nat × SRow => (p.1, { p.2 with
            confidence := rankPct (s.map (fun p : Nat × SRow => p.2.confidence)) p.2.confidence })) :=
      List.mem_map_of_mem _ hmemsf
    have hkeyss : (((s.filter (fun p : Nat × SRow =>
        !((d.filter (fun p : Nat × SRow => decide (t ≤ p.2.confidence))).map Prod.fst).contains p.1)).map
        (fun p : Nat × SRow => (p.1, { p.2 with
          confidence := rankPct (s.map (fun p : Nat × SRow => p.2.confidence)) p.2.confidence }))).map
        Prod.fst).Nodup := by
      rw [List.map_map]
      exact nodup_keys_filter s _ hs
    simp only [rowsLookup, combineAt]
    rw [List.find?_append, hfirst, find?_key_of_nodup _ q _ hkeyss hmem']
    rfl

theorem restrictTo_intersection_mem (d s : List (Nat × SRow)) (p : Nat × SRow) :
    (p ∈ restrictTo d (intersectingQuestions d s) ↔ p ∈ d ∧ p.1 ∈ keysOf s) ∧
    (p ∈ restrictTo s (intersectingQuestions d s) ↔ p ∈ s ∧ p.1 ∈ keysOf d) := by
  constructor
  · rw [restrictTo, List.mem_filter]
    constructor
    · rintro ⟨hpd, hq⟩
      refine ⟨hpd, ?_⟩
      have hmem := List.elem_iff.mp hq
      rcases List.mem_filter.mp hmem with ⟨_, hin⟩
      exact List.elem_iff.mp hin
    · rintro ⟨hpd, hq⟩
      refine ⟨hpd, ?_⟩
      apply List.elem_eq_true_of_mem
      apply List.mem_filter.mpr
      refine ⟨?_, List.elem_eq_true_of_mem hq⟩
      exact List.mem_map_of_mem Prod.fst hpd
  · rw [restrictTo, List.mem_filter]
    constructor
    · rintro ⟨hps, hq⟩
      refine ⟨hps, ?_⟩
      have hmem := List.elem_iff.mp hq
      rcases List.mem_filter.mp hmem with ⟨hin, _⟩
      exact hin
    · rintro ⟨hps, hq⟩
      refine ⟨hps, ?_⟩
      apply List.elem_eq_true_of_mem
      apply List.mem_filter.mpr
      refine ⟨hq, ?_⟩
      apply List.elem_eq_true_of_mem
      exact List.mem_map_of_mem Prod.fst hps

/-! ### C7: fallback threshold search -/

/-- C7 counterexample: a default system whose single (in-purview, incorrect)
row has confidence 5 and a secondary system sharing the question.  The only
evaluated threshold is 5, whose combined precision is a defined 0, so the
threshold maximizing precision (first found) is 5 — but the code returns the
initial sentinel threshold 0, which is not an observed confidence value,
because no threshold strictly beats the initial best precision 0. -/
theorem fallback_threshold_sentinel_zero :
    (fallbackCombination [(1, SRow.mk "d" 5 true false 1)]
        [(1, SRow.mk "s" 1 true false 1)]).1 = 0 ∧
    uniqueFirst ((restrictTo [(1, SRow.mk "d" 5 true false 1)]
        (intersectingQuestions [(1, SRow.mk "d" 5 true false 1)]
          [(1, SRow.mk "s" 1 true false 1)])).map
        (fun p : Nat × SRow => p.2.confidence)) = [5] ∧
    combinedPrecision
        (restrictTo [(1, SRow.mk "d" 5 true false 1)]
          (intersectingQuestions [(1, SRow.mk "d" 5 true false 1)]
            [(1, SRow.mk "s" 1 true false 1)]))
        (restrictTo [(1, SRow.mk "s" 1 true false 1)]
          (intersectingQuestions [(1, SRow.mk "d" 5 true false 1)]
            [(1, SRow.mk "s" 1 true false 1)]))
        5 = some 0 := by
  refine ⟨?_, ?_, ?_⟩
  · norm_num [fallbackCombination, fallbackSelect, fallbackStep, combinedPrecision, combineAt,
      precision, confGE, weightedSum, restrictTo, intersectingQuestions, keysOf, uniqueFirst,
      rankPct, countLT, countEQ, List.filter, SRow.toJRow]
  · norm_num [restrictTo, intersectingQuestions, keysOf, uniqueFirst, List.filter]
  · norm_num [combinedPrecision, combineAt, precision, confGE, weightedSum, restrictTo,
      intersectingQuestions, keysOf, rankPct, countLT, countEQ, List.filter, SRow.toJRow]

/-- C7 (amended): `fallback_combination` restricts both systems to their
question intersection and routes each shared question to the default system
exactly when the default confidence is at or above the selected threshold
(otherwise to the secondary system), each combined row carrying its percentile
confidence.  The threshold search evaluates every distinct confidence of the
(restricted) default system starting from the sentinel best (0, 0) and keeps
the first threshold that strictly improves the running best precision, so the
selected threshold is the first enumerated threshold attaining the maximum
precision when that maximum is positive, and is the sentinel 0 (generally not
an observed confidence) when no evaluated threshold has a defined precision
exceeding 0; an undefined (None) precision never wins. -/
theorem fallback_combination_characterization (d s : List (Nat × SRow))
    (hd : (keysOf d).Nodup) (hs : (keysOf s).Nodup) :
    (∀ p : Nat × SRow,
      (p ∈ restrictTo d (intersectingQuestions d s) ↔ p ∈ d ∧ p.1 ∈ keysOf s) ∧
      (p ∈ restrictTo s (intersectingQuestions d s) ↔ p ∈ s ∧ p.1 ∈ keysOf d)) ∧
    (∀ (q : Nat) (dr sr : SRow),
      rowsLookup (restrictTo d (intersectingQuestions d s)) q = some dr →
      rowsLookup (restrictTo s (intersectingQuestions d s)) q = some sr →
      (((fallbackCombination d s).1 ≤ dr.confidence →
        rowsLookup (fallbackCombination d s).2 q = some { dr with
          confidence := rankPct ((restrictTo d (intersectingQuestions d s)).map (fun p : Nat × SRow => p.2.confidence)) dr.confidence }) ∧
       (¬ (fallbackCombination d s).1 ≤ dr.confidence →
        rowsLookup (fallbackCombination d s).2 q = some { sr with
          confidence := rankPct ((restrictTo s (intersectingQuestions d s)).map (fun p : Nat × SRow => p.2.confidence)) sr.confidence }))) ∧
    ((∀ t ∈ uniqueFirst ((restrictTo d (intersectingQuestions d s)).map
          (fun p : Nat × SRow => p.2.confidence)), ∀ p,
        combinedPrecision (restrictTo d (intersectingQuestions d s))
          (restrictTo s (intersectingQuestions d s)) t = some p →
        p ≤ (fallbackSelect (restrictTo d (intersectingQuestions d s))
          (restrictTo s (intersectingQuestions d s))).2) ∧
      (fallbackSelect (restrictTo d (intersectingQuestions d s))
            (restrictTo s (intersectingQuestions d s)) = (0, 0) ∧
          (∀ t ∈ uniqueFirst ((restrictTo d (intersectingQuestions d s)).map
              (fun p : Nat × SRow => p.2.confidence)), ∀ p,
            combinedPrecision (restrictTo d (intersectingQuestions d s))
              (restrictTo s (intersectingQuestions d s)) t = some p → p ≤ 0) ∨
        combinedPrecision (restrictTo d (intersectingQuestions d s))
            (restrictTo s (intersectingQuestions d s))
            (fallbackSelect (restrictTo d (intersectingQuestions d s))
              (restrictTo s (intersectingQuestions d s))).1
          = some (fallbackSelect (restrictTo d (intersectingQuestions d s))
              (restrictTo s (intersectingQuestions d s))).2 ∧
          0 < (fallbackSelect (restrictTo d (intersectingQuestions d s))
              (restrictTo s (intersectingQuestions d s))).2 ∧
          (uniqueFirst ((restrictTo d (intersectingQuestions d s)).map
              (fun p : Nat × SRow => p.2.confidence))).find?
              (precAtLeast (restrictTo d (intersectingQuestions d s))
                (restrictTo s (intersectingQuestions d s))
                (fallbackSelect (restrictTo d (intersectingQuestions d s))
                  (restrictTo s (intersectingQuestions d s))).2)
            = some (fallbackSelect (restrictTo d (intersectingQuestions d s))
                (restrictTo s (intersectingQuestions d s))).1)) := by
  refine ⟨fun p => restrictTo_intersection_mem d s p, ?_, ?_⟩
  · intro q dr sr hdq hsq
    have hd' : ((restrictTo d (intersectingQuestions d s)).map Prod.fst).Nodup :=
      nodup_keys_filter d _ hd
    have hs' : ((restrictTo s (intersectingQuestions d s)).map Prod.fst).Nodup :=
      nodup_keys_filter s _ hs
    exact combineAt_routing (restrictTo d (intersectingQuestions d s))
      (restrictTo s (intersectingQuestions d s))
      (fallbackCombination d s).1 hd' hs' q dr sr hdq hsq
  · obtain ⟨h1, _, h3⟩ := fallbackSelect_fold_spec
      (restrictTo d (intersectingQuestions d s))
      (restrictTo s (intersectingQuestions d s))
      (uniqueFirst ((restrictTo d (intersectingQuestions d s)).map
        (fun p : Nat × SRow => p.2.confidence)))
      (0, 0)
    exact ⟨h1, h3⟩

/-- Witness for C7 (amended): the restriction characterization instantiated
at the default row of a concrete two-system input. -/
theorem fallback_combination_characterization_witness :
    ((1, SRow.mk "d" 5 true true 1) ∈
        restrictTo [(1, SRow.mk "d" 5 true true 1)]
          (intersectingQuestions [(1, SRow.mk "d" 5 true true 1)]
            [(1, SRow.mk "s" 1 true false 1)]) ↔
      (1, SRow.mk "d" 5 true true 1) ∈ [(1, SRow.mk "d" 5 true true 1)] ∧
        (1, SRow.mk "d" 5 true true 1).1 ∈ keysOf [(1, SRow.mk "s" 1 true false 1)]) ∧
    ((1, SRow.mk "d" 5 true true 1) ∈
        restrictTo [(1, SRow.mk "s" 1 true false 1)]
          (intersectingQuestions [(1, SRow.mk "d" 5 true true 1)]
            [(1, SRow.mk "s" 1 true false 1)]) ↔
      (1, SRow.mk "d" 5 true true 1) ∈ [(1, SRow.mk "s" 1 true false 1)] ∧
        (1, SRow.mk "d" 5 true true 1).1 ∈ keysOf [(1, SRow.mk "d" 5 true true 1)]) :=
  (fallback_combination_characterization
      [(1, SRow.mk "d" 5 true true 1)] [(1, SRow.mk "s" 1 true false 1)]
      (by decide) (by decide)).1
    (1, SRow.mk "d" 5 true true 1)

end Themis
